import Mathlib

/-!
Verification of the lockfree-userspace-rcu library against its specification.

The development shallowly embeds the sequential semantics of the library's
core data structures:

* `Local3StateRcu` — the asymmetric reader/updater three-slot channel
  (src/simple_rcu/local_3state_rcu.h),
* `Local3StateExchange` — the symmetric two-sided three-slot exchange
  (src/simple_rcu/local_3state_exchange.h),
* `TwoThreadConcurrent` — the monoidal accumulator built on the exchange
  (src/simple_rcu/two_thread_concurrent.h),
* the `PassLeft`/`PassRight` exchange and `LocalLockFreeMetric`
  (src/simple_rcu/lock_free_metric.h, src/simple_rcu/lockfree_metric.h),
* `CopyRcu` and its per-thread `View` (src/simple_rcu/copy_rcu.h).

Machine integers (`Index`, `int_fast32_t`, …) are modelled as `ℤ`; the bit
operations on the atomic state words use `Int.land`/`Int.lor`, which agree
with the two's-complement semantics of the C++ operators.  The
`std::array<T, 3>` payload stores are modelled by the `Cells` triple; an
index outside {0,1,2} (undefined behavior in the source) is mapped to the
last cell, which no proved statement relies on.  Each atomic
read-modify-write is one step of a pure state transformer; concurrency is
modelled as arbitrary interleaving of whole operations of the two sides.
-/

/-- A triple of payload cells, modelling `std::array<T, 3> values_`. -/
structure Cells (α : Type) where
  c0 : α
  c1 : α
  c2 : α
  deriving Repr, DecidableEq

namespace Cells

/-- `values_[i]` for `i ∈ {0,1,2}` (out-of-range access is UB in the source;
we map it to the last cell). -/
def get (c : Cells α) (i : ℤ) : α :=
  if i = 0 then c.c0 else if i = 1 then c.c1 else c.c2

/-- `values_[i] = v`. -/
def set (c : Cells α) (i : ℤ) (v : α) : Cells α :=
  if i = 0 then { c with c0 := v }
  else if i = 1 then { c with c1 := v }
  else { c with c2 := v }

end Cells

/-- `i ∈ {0, 1, 2}`: the valid cell indices. -/
def mem3 (i : ℤ) : Prop := i = 0 ∨ i = 1 ∨ i = 2

instance (i : ℤ) : Decidable (mem3 i) := by unfold mem3; infer_instance

namespace Local3StateRcu

/-- `kNullIndex = -1`. -/
def kNullIndex : ℤ := -1

/-- The private `update_` context of the updater thread: fields `index` and
`next_index`. -/
structure UpdateCtx where
  index : ℤ
  nextIndex : ℤ
  deriving Repr, DecidableEq

/-- `update_.OldReadIndex()`: `(0 + 1 + 2) - (index + next_index)`. -/
def UpdateCtx.OldReadIndex (u : UpdateCtx) : ℤ :=
  (0 + 1 + 2) - (u.index + u.nextIndex)

/-- `update_.RotateAfterNext()`: `next_index <- index <- old read index`. -/
def UpdateCtx.RotateAfterNext (u : UpdateCtx) : UpdateCtx :=
  { index := u.OldReadIndex, nextIndex := u.index }

/-- The full state of a `Local3StateRcu<T>` instance: the three cells, the
atomic `next_read_index_`, the reader context `read_.index` and the updater
context `update_`. -/
structure State (α : Type) where
  values : Cells α
  nextReadIndex : ℤ
  readIndex : ℤ
  update : UpdateCtx
  deriving Repr, DecidableEq

/-- The three-argument constructor `Local3StateRcu(read, update, reclaim)`. -/
def init (r u c : α) : State α :=
  { values := ⟨r, u, c⟩
    nextReadIndex := kNullIndex
    readIndex := 0
    update := { index := 1, nextIndex := 0 } }

/-- `Read()`: the value of the reader-owned cell. -/
def Read (s : State α) : α := s.values.get s.readIndex

/-- `Update()`: the value of the updater-owned cell. -/
def Update (s : State α) : α := s.values.get s.update.index

/-- Writing through the `Read()` reference. -/
def writeRead (s : State α) (v : α) : State α :=
  { s with values := s.values.set s.readIndex v }

/-- Writing through the `Update()` reference. -/
def writeUpdate (s : State α) (v : α) : State α :=
  { s with values := s.values.set s.update.index v }

/-- `TryRead()`: exchange `next_read_index_` with `kNullIndex`; advance the
reader iff the previous value was not null. -/
def TryRead (s : State α) : Bool × State α :=
  let nextReadIndex := s.nextReadIndex
  let s' := { s with nextReadIndex := kNullIndex }
  if nextReadIndex ≠ kNullIndex then
    (true, { s' with readIndex := nextReadIndex })
  else
    (false, s')

/-- `TryUpdate()`: CAS `next_read_index_` from `kNullIndex` to
`update_.index`; on success rotate the updater indices. -/
def TryUpdate (s : State α) : Bool × State α :=
  if s.nextReadIndex = kNullIndex then
    (true, { s with nextReadIndex := s.update.index
                    update := s.update.RotateAfterNext })
  else
    (false, s)

/-- `ForceUpdate()`: exchange `next_read_index_` with `update_.index`; rotate
on a null previous value, otherwise swap `update_.index` with the previous
`next_read_index_`. -/
def ForceUpdate (s : State α) : Bool × State α :=
  let oldNextReadIndex := s.nextReadIndex
  let s' := { s with nextReadIndex := s.update.index }
  if oldNextReadIndex = kNullIndex then
    (true, { s' with update := s.update.RotateAfterNext })
  else
    (false, { s' with update := { index := oldNextReadIndex
                                  nextIndex := s.update.index } })

/-- `ReclaimByUpdate()`: the in-flight value, if it is "R->U". -/
def ReclaimByUpdate (s : State α) : Option α :=
  if s.nextReadIndex = kNullIndex then
    some (s.values.get s.update.OldReadIndex)
  else
    none

/-- Writing through the pointer returned by `ReclaimByUpdate()` (a no-op when
it returned `nullptr`). -/
def writeReclaim (s : State α) (v : α) : State α :=
  if s.nextReadIndex = kNullIndex then
    { s with values := s.values.set s.update.OldReadIndex v }
  else
    s

/-- One operation of either side of a `Local3StateRcu`. -/
inductive Op (α : Type) where
  | tryRead
  | tryUpdate
  | forceUpdate
  | writeRead (v : α)
  | writeUpdate (v : α)
  | writeReclaim (v : α)

/-- Apply one operation to the state. -/
def step (s : State α) : Op α → State α
  | .tryRead => (TryRead s).2
  | .tryUpdate => (TryUpdate s).2
  | .forceUpdate => (ForceUpdate s).2
  | .writeRead v => writeRead s v
  | .writeUpdate v => writeUpdate s v
  | .writeReclaim v => writeReclaim s v

/-- Apply a sequence of operations (an arbitrary interleaving of the two
sides' calls) to the state. -/
def run (s : State α) (ops : List (Op α)) : State α := ops.foldl step s

/-- The index of the in-flight (mid) cell: `next_read_index_` when a value is
"U->R", otherwise `update_.OldReadIndex()` (the "R->U" cell). -/
def midIndex (s : State α) : ℤ :=
  if s.nextReadIndex = kNullIndex then s.update.OldReadIndex
  else s.nextReadIndex

/-- The state invariant documented at `next_read_index_` in
local_3state_rcu.h: when null, `read_.index == update_.next_index !=
update_.index`; otherwise the three indices partition {0,1,2} and
`next_read_index_ == update_.next_index`. -/
def Inv (s : State α) : Prop :=
  mem3 s.readIndex ∧ mem3 s.update.index ∧ mem3 s.update.nextIndex ∧
  s.update.index ≠ s.update.nextIndex ∧
  (if s.nextReadIndex = kNullIndex then
    s.readIndex = s.update.nextIndex
  else
    s.nextReadIndex = s.update.nextIndex ∧
    s.readIndex ≠ s.update.index ∧ s.readIndex ≠ s.update.nextIndex)

instance (s : State α) : Decidable (Inv s) := by unfold Inv; infer_instance

end Local3StateRcu

namespace Local3StateExchange

/-- `kIndexMask = 3`. -/
def kIndexMask : ℤ := 3

/-- `kRightMask = 4`. -/
def kRightMask : ℤ := 4

/-- `kExchangedMask = 8`. -/
def kExchangedMask : ℤ := 8

/-- The per-side `Context`: the owned cell `index` (just the low bits) and
`last`, the exact value the side last wrote to the atomic. -/
structure Context where
  index : ℤ
  last : ℤ
  deriving Repr, DecidableEq

/-- The full state of a `Local3StateExchange<T>`: the atomic `passing_`, the
two side contexts `context_[0]` (Left) and `context_[1]` (Right), and the
three payload slots. -/
structure State (α : Type) where
  passing : ℤ
  contextLeft : Context
  contextRight : Context
  values : Cells α
  deriving Repr, DecidableEq

/-- The constructor: `passing_ = 1`, Left context `{index = 0, last = 1}`,
Right context `{index = 2, last = -1}`, three slots built from the same
arguments. -/
def init (v : α) : State α :=
  { passing := 1
    contextLeft := { index := 0, last := 1 }
    contextRight := { index := 2, last := -1 }
    values := ⟨v, v, v⟩ }

/-- `context_[Right]`. -/
def context (s : State α) (right : Bool) : Context :=
  if right then s.contextRight else s.contextLeft

/-- Store a side's context back into the state. -/
def setContext (s : State α) (right : Bool) (c : Context) : State α :=
  if right then { s with contextRight := c } else { s with contextLeft := c }

/-- `Side<Right>::ref()`: the side's owned cell. -/
def refValue (s : State α) (right : Bool) : α :=
  s.values.get (context s right).index

/-- Writing through the `ref()` reference. -/
def writeRef (s : State α) (right : Bool) (v : α) : State α :=
  { s with values := s.values.set (context s right).index v }

/-- The result of `Side<Right>::Pass`: the new state, the index of the
returned `ref`, the two flags, and the values handed (in call order) to the
`might_double_exchange` callback. -/
structure PassResult (α : Type) where
  state : State α
  refIndex : ℤ
  exchanged : Bool
  pastExchanged : Bool
  callbackArgs : List α
  deriving Repr, DecidableEq

/-- `Side<Right>::Pass(might_double_exchange)`.  The callback invocations are
recorded in `callbackArgs` instead of being applied; the C++ callbacks only
read (copy or move out of) the cell, never write it, so the cell contents
are unchanged by the call itself.  The `compare_exchange_strong` on
`passing_` succeeds iff `passing_` equals the side's cached `last`; on
failure the side re-publishes with an unconditional `exchange`. -/
def Pass (right : Bool) (s : State α) : PassResult α :=
  let ctx := context s right
  let calledMightDoubleExchange : Bool := Int.land ctx.last kExchangedMask != 0
  let calls0 : List α :=
    if calledMightDoubleExchange then [s.values.get ctx.index] else []
  let newIndex0 : ℤ := Int.lor ctx.index (if right then kRightMask else 0)
  if s.passing = ctx.last then
    -- CAS succeeded: `received` keeps the expected value `ctx.last`.
    let received := ctx.last
    let ctx' : Context := { index := Int.land received kIndexMask
                            last := newIndex0 }
    { state := setContext { s with passing := newIndex0 } right ctx'
      refIndex := ctx'.index
      exchanged := false
      pastExchanged := Int.land received kExchangedMask != 0
      callbackArgs := calls0 }
  else
    -- CAS failed: `received` is the current `passing_`; re-publish with the
    -- `kExchangedMask` bit via an atomic exchange.
    let received := s.passing
    let secondCall : Bool :=
      (Int.land received kExchangedMask != 0) && !calledMightDoubleExchange
    let calls := calls0 ++ (if secondCall then [s.values.get ctx.index] else [])
    let newIndex := Int.lor newIndex0 kExchangedMask
    let ctx' : Context := { index := Int.land received kIndexMask
                            last := newIndex }
    { state := setContext { s with passing := newIndex } right ctx'
      refIndex := ctx'.index
      exchanged := true
      pastExchanged := Int.land received kExchangedMask != 0
      callbackArgs := calls }

/-- One operation of either side of a `Local3StateExchange`. -/
inductive Op (α : Type) where
  | pass (right : Bool)
  | writeRef (right : Bool) (v : α)

/-- Apply one operation to the state. -/
def step (s : State α) : Op α → State α
  | .pass right => (Pass right s).state
  | .writeRef right v => writeRef s right v

/-- Apply a sequence of operations (an arbitrary interleaving of the two
sides' calls) to the state. -/
def run (s : State α) (ops : List (Op α)) : State α := ops.foldl step s

/-- The index of the cell currently in the mid (in-flight) role: the index
bits of the state word. -/
def midIndex (s : State α) : ℤ := Int.land s.passing kIndexMask

/-- The exchange invariant: the two owned indices and the mid index are
pairwise distinct members of {0,1,2}. -/
def Inv (s : State α) : Prop :=
  mem3 s.contextLeft.index ∧ mem3 s.contextRight.index ∧ mem3 (midIndex s) ∧
  s.contextLeft.index ≠ s.contextRight.index ∧
  s.contextLeft.index ≠ midIndex s ∧
  s.contextRight.index ≠ midIndex s

instance (s : State α) : Decidable (Inv s) := by unfold Inv; infer_instance

/-- The state after `n` passes by a single side starting from `s`, the other
side idle. -/
def soloStates (right : Bool) (s : State α) : ℕ → State α
  | 0 => s
  | n + 1 => (Pass right (soloStates right s n)).state

end Local3StateExchange

namespace TwoThreadConcurrent

/-- The cell type of `TwoThreadConcurrent<int>`: `collected_` plus the
delayed operation `last_`.  `OperatorPlus<int>` gives `NoOp() = 0` and
`Apply(target, diff) = (target += diff)`. -/
structure Slice where
  collected : ℤ
  last : ℤ
  deriving Repr, DecidableEq

/-- `Slice::Append(diff)`: `Apply(collected_, std::exchange(last_, diff))`. -/
def Slice.Append (s : Slice) (d : ℤ) : Slice :=
  { collected := s.collected + s.last, last := d }

/-- `TwoThreadConcurrent(initial)`: the exchange holds three
`Slice(initial)` cells, each with `last_ = NoOp() = 0`. -/
def init (initial : ℤ) : Local3StateExchange.State Slice :=
  Local3StateExchange.init { collected := initial, last := 0 }

/-- `TwoThreadConcurrent::Update<Right>(diff)`: append `diff` to the owned
cell, pass it on (the callback saves a copy of the outgoing cell in
`prev_copy`), then fix up the newly received cell according to the
`past_exchanged`/`exchanged` flags.  Returns `(next.ref.collected_,
next.exchanged)` and the new state. -/
def Update (right : Bool) (d : ℤ) (s : Local3StateExchange.State Slice) :
    (ℤ × Bool) × Local3StateExchange.State Slice :=
  let s1 := Local3StateExchange.writeRef s right
    ((Local3StateExchange.refValue s right).Append d)
  let res := Local3StateExchange.Pass right s1
  let next := res.state.values.get res.refIndex
  let next' :=
    if res.pastExchanged then
      -- `ABSL_CHECK(prev_copy.has_value())`: justified by
      -- `c9_pass_callback_guarantee` below.
      let prev := res.callbackArgs.getLast?.getD next
      let withCollected := { next with collected := prev.collected }
      if res.exchanged then withCollected.Append d
      else { withCollected with last := d }
    else
      next.Append d
  (((next').collected, res.exchanged),
    { res.state with values := res.state.values.set res.refIndex next' })

/-- `ObserveLast<Right>()`: `ref().Append(NoOp())`, returning the new
`collected_`. -/
def ObserveLast (right : Bool) (s : Local3StateExchange.State Slice) :
    ℤ × Local3StateExchange.State Slice :=
  let next := (Local3StateExchange.refValue s right).Append 0
  (next.collected, Local3StateExchange.writeRef s right next)

/-- Run a list of `(Right, diff)` updates, collecting the returned pairs. -/
def UpdateSeq (s : Local3StateExchange.State Slice) :
    List (Bool × ℤ) → List (ℤ × Bool)
  | [] => []
  | (r, d) :: rest =>
      let p := Update r d s
      p.1 :: UpdateSeq p.2 rest

end TwoThreadConcurrent

namespace LockFreeMetric

/-- `kIndexMask = 3` of the metric's exchange (lockfree_metric.h). -/
def kIndexMask : ℤ := 3

/-- `kByRightMask = 4`. -/
def kByRightMask : ℤ := 4

/-- The metric's `Local3StateExchange` (lockfree_metric.h): two plain owned
indices `left_`/`right_` around the atomic `passing_`. -/
structure MetricExchange (α : Type) where
  left : ℤ
  passing : ℤ
  right : ℤ
  values : Cells α
  deriving Repr, DecidableEq

/-- Its constructor: `left_ = 0`, `passing_ = 1`, `right_ = 2`, cells
default-initialized. -/
def MetricExchange.init (v : α) : MetricExchange α :=
  { left := 0, passing := 1, right := 2, values := ⟨v, v, v⟩ }

/-- `PassLeft()`: exchange `passing_` with `left_`; the new Left cell is the
received index; the flag is `received & kByRightMask`. -/
def PassLeft (s : MetricExchange α) : (ℤ × Bool) × MetricExchange α :=
  let received := s.passing
  let s' := { s with passing := s.left, left := Int.land received kIndexMask }
  ((s'.left, Int.land received kByRightMask != 0), s')

/-- `PassRight()`: exchange `passing_` with `right_ | kByRightMask`; the flag
is `!(received & kByRightMask)`. -/
def PassRight (s : MetricExchange α) : (ℤ × Bool) × MetricExchange α :=
  let received := s.passing
  let s' := { s with passing := Int.lor s.right kByRightMask
                     right := Int.land received kIndexMask }
  ((s'.right, !(Int.land received kByRightMask != 0)), s')

/-- The metric's `Slice` for `C = D = int` accumulated with `+=`: the range
`[start_, end_)` of update indices it covers, `collected_`, and the delayed
`last_` (`std::optional<D>`). -/
structure MSlice where
  start_ : ℤ
  end_ : ℤ
  collected : ℤ
  last : Option ℤ
  deriving Repr, DecidableEq

/-- `Slice::size()`. -/
def MSlice.size (s : MSlice) : ℤ := s.end_ - s.start_

/-- `Slice::empty()`: holds iff `last_` has no value. -/
def MSlice.empty (s : MSlice) : Bool := !s.last.isSome

/-- `Slice::Append(value)`: fold the delayed `last_` into `collected_`,
store `value` as the new `last_`, advance `end_`. -/
def MSlice.Append (s : MSlice) (v : ℤ) : MSlice :=
  { s with collected := match s.last with
             | some l => s.collected + l
             | none => s.collected
           last := some v
           end_ := s.end_ + 1 }

/-- `Slice::KeepJustLast()`. -/
def MSlice.KeepJustLast (s : MSlice) : MSlice :=
  { s with start_ := s.end_ - 1, collected := 0 }

/-- `Slice::Reset(new_start)` (lock_free_metric.h flavor: the clearing is
guarded by `!empty()`). -/
def MSlice.Reset (s : MSlice) (newStart : ℤ) : MSlice :=
  let s' := if s.empty then s else { s with collected := 0, last := none }
  { s' with end_ := newStart, start_ := newStart }

/-- `Slice::CollectAndReset()`: returns the fully folded `collected_` and
leaves the slice empty, `start_ = end_`. -/
def MSlice.CollectAndReset (s : MSlice) : ℤ × MSlice :=
  let s1 := { s with start_ := s.end_ }
  let s2 := match s1.last with
    | some l => { s1 with collected := s1.collected + l, last := none }
    | none => s1
  (s2.collected, { s2 with collected := 0 })

/-- The state of a `LocalLockFreeMetric<int, int>`: `update_index_`,
`collect_index_` and the exchange of three `Slice`s. -/
structure LocalState where
  updateIndex : ℤ
  collectIndex : ℤ
  exchange : MetricExchange MSlice
  deriving Repr, DecidableEq

/-- A freshly constructed `LocalLockFreeMetric`: all counters 0, all slices
default-constructed. -/
def initLocal : LocalState :=
  { updateIndex := 0, collectIndex := 0
    exchange := MetricExchange.init ⟨0, 0, 0, none⟩ }

/-- `LocalLockFreeMetric::Update(value)` (lock_free_metric.h): append to the
Left slice, pass Left, then reset / trim / append on the received slice and
advance `update_index_`. -/
def LocalUpdate (v : ℤ) (l : LocalState) : LocalState :=
  let prev := (l.exchange.values.get l.exchange.left).Append v
  let ex1 := { l.exchange with
                 values := l.exchange.values.set l.exchange.left prev }
  let lastStart := prev.start_
  let pr := PassLeft ex1
  let nextIdx := pr.1.1
  let exchanged := pr.1.2
  let ex2 := pr.2
  let next := ex2.values.get nextIdx
  let next1 :=
    if exchanged then
      next.Reset l.updateIndex
    else if lastStart - next.start_ > 0 then
      next.KeepJustLast
    else
      next
  let next2 := next1.Append v
  { updateIndex := l.updateIndex + 1
    collectIndex := l.collectIndex
    exchange := { ex2 with values := ex2.values.set nextIdx next2 } }

/-- `LocalLockFreeMetric::Collect()` (lock_free_metric.h): pass Right, then
depending on `seen = collect_index_ - next.start()` either report the fatal
missing range (unreachable), trim-and-collect, or reset an already seen
slice and return `C{}`. -/
def LocalCollect (l : LocalState) : ℤ × LocalState :=
  let pr := PassRight l.exchange
  let nextIdx := pr.1.1
  let ex1 := pr.2
  let next := ex1.values.get nextIdx
  let seen := l.collectIndex - next.start_
  if seen < 0 then
    -- `ABSL_LOG(FATAL)`; the `return C{}` after it is unreachable.
    (0, { l with exchange := ex1 })
  else if seen < next.size then
    let next1 := if seen > 0 then next.KeepJustLast else next
    let collectIndex := l.collectIndex + next1.size
    let cr := next1.CollectAndReset
    (cr.1, { l with collectIndex := collectIndex
                    exchange := { ex1 with
                                    values := ex1.values.set nextIdx cr.2 } })
  else
    let next1 := next.Reset l.collectIndex
    (0, { l with exchange := { ex1 with
                                 values := ex1.values.set nextIdx next1 } })

/-- The per-thread local after `k` producer calls `Update(1)` (each diff is
`+= 1`), with no interleaved collector activity. -/
def updateN : ℕ → LocalState
  | 0 => initLocal
  | k + 1 => LocalUpdate 1 (updateN k)

/-- `LockFreeMetric::Collect(ptr)`: under `lock_`, call `Collect()` on every
registered per-thread local and return the list of results. -/
def CollectAll (locals : List LocalState) : List ℤ :=
  locals.map (fun l => (LocalCollect l).1)

/-- The common value of the two active slices after `k ≥ 1` producer-only
`Update(1)` calls: range `[0, k)`, `collected_ = k - 1`, delayed
`last_ = 1`. -/
def activeSlice (k : ℕ) : MSlice :=
  { start_ := 0, end_ := (k : ℤ), collected := (k : ℤ) - 1, last := some 1 }

/-- Closed form of the per-thread local after `k` producer-only `Update(1)`
calls: the producer alternates between cells 0 and 1, keeping both equal,
while cell 2 stays with the (idle) collector. -/
def producerState (k : ℕ) : LocalState :=
  if k = 0 then initLocal
  else
    { updateIndex := (k : ℤ)
      collectIndex := 0
      exchange := { left := if k % 2 = 1 then 1 else 0
                    passing := if k % 2 = 1 then 0 else 1
                    right := 2
                    values := ⟨activeSlice k, activeSlice k, ⟨0, 0, 0, none⟩⟩ } }

end LockFreeMetric

namespace CopyRcu

/-- The state of a `CopyRcu<T>`: the mutex-guarded current `value_` and the
registered per-thread `Local3StateRcu` instances (the `locals_` set; order
is irrelevant to the semantics we prove). -/
structure State (α : Type) where
  value : α
  locals : List (Local3StateRcu.State α)

/-- `CopyRcu::UpdateLocked(value)`: for every registered local,
`local_rcu.Update() = value; local_rcu.ForceUpdate();`, then swap `value_`
with the argument and return the old value. -/
def UpdateLocked (s : State α) (v : α) : α × State α :=
  (s.value,
    { value := v
      locals := s.locals.map (fun l =>
        (Local3StateRcu.ForceUpdate (Local3StateRcu.writeUpdate l v)).2) })

/-- `CopyRcu::Update(value)`: `UpdateLocked` under the mutex. -/
def Update (s : State α) (v : α) : α × State α := UpdateLocked s v

/-- `CopyRcu::UpdateIf(value, pred)`: evaluate `pred` on the current
`value_` under the mutex; fan out only when it holds. -/
def UpdateIf (s : State α) (v : α) (pred : α → Bool) : Option α × State α :=
  if pred s.value then
    let p := UpdateLocked s v
    (some p.1, p.2)
  else
    (none, s)

/-- The state of a `CopyRcu<T>::View`: the snapshot reference counter and
the thread's `Local3StateRcu`. -/
structure View (α : Type) where
  snapshotDepth : ℤ
  localRcu : Local3StateRcu.State α
  deriving Repr, DecidableEq

/-- `View::Read()`: `if (snapshot_depth_++ == 0) local_.local_rcu.TryRead();
return Snapshot(&local_.local_rcu.Read(), ...)`. -/
def View.Read (v : View α) : α × View α :=
  let depth := v.snapshotDepth
  let v1 : View α := { v with snapshotDepth := depth + 1 }
  let v2 :=
    if depth = 0 then
      { v1 with localRcu := (Local3StateRcu.TryRead v1.localRcu).2 }
    else
      v1
  (Local3StateRcu.Read v2.localRcu, v2)

/-- `SnapshotDeleter::operator()`: `registrar_.snapshot_depth_--`. -/
def View.releaseSnapshot (v : View α) : View α :=
  { v with snapshotDepth := v.snapshotDepth - 1 }

end CopyRcu

/-! ## Theorems -/

namespace Local3StateRcu

theorem inv_init (r u c : α) : Inv (init r u c) := by
  unfold Inv init mem3
  simp [kNullIndex]

theorem inv_step (s : State α) (op : Op α) (h : Inv s) : Inv (step s op) := by
  obtain ⟨hr, hu, hn, hne, hcase⟩ := h
  cases op with
  | tryRead =>
      unfold step TryRead
      by_cases hnull : s.nextReadIndex = kNullIndex
      · simp only [hnull, ne_eq, not_true_eq_false, if_false]
        refine ⟨hr, hu, hn, hne, ?_⟩
        simp only [hnull] at hcase
        simpa [Inv, kNullIndex] using hcase
      · simp only [hnull] at hcase
        obtain ⟨he, _, _⟩ := hcase
        simp only [ne_eq, hnull, not_false_iff, if_true]
        refine ⟨?_, hu, hn, hne, ?_⟩
        · simpa [he] using hn
        · simp [he]
  | tryUpdate =>
      unfold step TryUpdate
      by_cases hnull : s.nextReadIndex = kNullIndex
      · simp only [hnull, if_true]
        simp only [hnull, if_true] at hcase
        unfold Inv UpdateCtx.RotateAfterNext UpdateCtx.OldReadIndex
        simp only []
        rcases hu with h1 | h1 | h1 <;> rcases hn with h2 | h2 | h2 <;>
          simp_all [mem3, kNullIndex, hcase] <;> omega
      · simp only [hnull, if_false]
        exact ⟨hr, hu, hn, hne,
          by simp only [hnull, if_false] at hcase ⊢; exact hcase⟩
  | forceUpdate =>
      unfold step ForceUpdate
      by_cases hnull : s.nextReadIndex = kNullIndex
      · simp only [hnull, kNullIndex, if_true]
        simp only [hnull, if_true] at hcase
        unfold Inv UpdateCtx.RotateAfterNext UpdateCtx.OldReadIndex
        simp only []
        rcases hu with h1 | h1 | h1 <;> rcases hn with h2 | h2 | h2 <;>
          simp_all [mem3, kNullIndex, hcase] <;> omega
      · simp only [hnull, if_false]
        simp only [hnull, if_false] at hcase
        obtain ⟨he, hne1, hne2⟩ := hcase
        unfold Inv
        rcases hu with h1 | h1 | h1 <;> rcases hn with h2 | h2 | h2 <;>
          simp_all [mem3, kNullIndex] <;> omega
  | writeRead v => exact ⟨hr, hu, hn, hne, hcase⟩
  | writeUpdate v => exact ⟨hr, hu, hn, hne, hcase⟩
  | writeReclaim v =>
      unfold step writeReclaim
      by_cases hnull : s.nextReadIndex = kNullIndex <;>
        simp only [hnull, if_true, if_false] <;>
        exact ⟨hr, hu, hn, hne, by simpa [hnull] using hcase⟩

theorem inv_run (s : State α) (ops : List (Op α)) (h : Inv s) :
    Inv (run s ops) := by
  induction ops generalizing s with
  | nil => exact h
  | cons op ops ih => exact ih _ (inv_step s op h)

/-- From the invariant: the reader index, updater index and mid index are
pairwise distinct members of {0,1,2}. -/
theorem inv_distinct (s : State α) (h : Inv s) :
    mem3 s.readIndex ∧ mem3 s.update.index ∧ mem3 (midIndex s) ∧
    s.readIndex ≠ s.update.index ∧ s.readIndex ≠ midIndex s ∧
    s.update.index ≠ midIndex s := by
  obtain ⟨hr, hu, hn, hne, hcase⟩ := h
  unfold midIndex UpdateCtx.OldReadIndex
  by_cases hnull : s.nextReadIndex = kNullIndex
  · simp only [hnull, if_true]
    simp only [hnull, if_true] at hcase
    rcases hu with h1 | h1 | h1 <;> rcases hn with h2 | h2 | h2 <;>
      simp_all [mem3] <;> omega
  · simp only [hnull, if_false]
    simp only [hnull, if_false] at hcase
    obtain ⟨he, hne1, hne2⟩ := hcase
    rcases hu with h1 | h1 | h1 <;> rcases hn with h2 | h2 | h2 <;>
      simp_all [mem3] <;> omega

end Local3StateRcu

namespace Local3StateExchange

theorem exchange_inv_init (v : α) : Inv (init v) := by
  refine ⟨?_, ?_, ?_, ?_, ?_, ?_⟩ <;>
    simp only [Inv, init, midIndex, mem3, kIndexMask] <;> decide

/-- Publishing `index | kRightMask | kExchangedMask` keeps the index bits
intact for a valid index. -/
theorem land_lor_masks (i : ℤ) (h : mem3 i) (b : Bool) :
    Int.land (Int.lor i (if b then kRightMask else 0)) kIndexMask = i ∧
    Int.land (Int.lor (Int.lor i (if b then kRightMask else 0)) kExchangedMask)
      kIndexMask = i := by
  rcases h with h | h | h <;> subst h <;> cases b <;> constructor <;> decide

/-- A pass by the Left side swaps the Left-owned index with the mid index and
leaves the Right-owned index alone. -/
theorem pass_left_indices (s : State α) (h : mem3 s.contextLeft.index) :
    (Pass false s).state.contextLeft.index = midIndex s ∧
    (Pass false s).state.contextRight.index = s.contextRight.index ∧
    midIndex (Pass false s).state = s.contextLeft.index := by
  unfold Pass
  by_cases hcas : s.passing = (context s false).last
  · rw [if_pos hcas]
    refine ⟨?_, rfl, ?_⟩
    · have : Int.land (context s false).last kIndexMask = midIndex s := by
        rw [← hcas]; rfl
      exact this
    · exact (land_lor_masks s.contextLeft.index h false).1
  · rw [if_neg hcas]
    exact ⟨rfl, rfl, (land_lor_masks s.contextLeft.index h false).2⟩

/-- A pass by the Right side swaps the Right-owned index with the mid index
and leaves the Left-owned index alone. -/
theorem pass_right_indices (s : State α) (h : mem3 s.contextRight.index) :
    (Pass true s).state.contextRight.index = midIndex s ∧
    (Pass true s).state.contextLeft.index = s.contextLeft.index ∧
    midIndex (Pass true s).state = s.contextRight.index := by
  unfold Pass
  by_cases hcas : s.passing = (context s true).last
  · rw [if_pos hcas]
    refine ⟨?_, rfl, ?_⟩
    · have : Int.land (context s true).last kIndexMask = midIndex s := by
        rw [← hcas]; rfl
      exact this
    · exact (land_lor_masks s.contextRight.index h true).1
  · rw [if_neg hcas]
    exact ⟨rfl, rfl, (land_lor_masks s.contextRight.index h true).2⟩

theorem exchange_inv_step (s : State α) (op : Op α) (h : Inv s) :
    Inv (step s op) := by
  obtain ⟨hl, hr, hm, h1, h2, h3⟩ := h
  cases op with
  | writeRef right v => exact ⟨hl, hr, hm, h1, h2, h3⟩
  | pass right =>
      unfold step
      cases right with
      | false =>
          obtain ⟨e1, e2, e3⟩ := pass_left_indices s hl
          exact ⟨by rw [e1]; exact hm, by rw [e2]; exact hr,
            by rw [e3]; exact hl,
            by rw [e1, e2]; exact fun hc => h3 hc.symm,
            by rw [e1, e3]; exact fun hc => h2 hc.symm,
            by rw [e2, e3]; exact fun hc => h1 hc.symm⟩
      | true =>
          obtain ⟨e1, e2, e3⟩ := pass_right_indices s hr
          exact ⟨by rw [e2]; exact hl, by rw [e1]; exact hm,
            by rw [e3]; exact hr,
            by rw [e1, e2]; exact fun hc => h2 hc,
            by rw [e2, e3]; exact h1,
            by rw [e1, e3]; exact fun hc => h3 hc.symm⟩

theorem exchange_inv_run (s : State α) (ops : List (Op α)) (h : Inv s) :
    Inv (run s ops) := by
  induction ops generalizing s with
  | nil => exact h
  | cons op ops ih => exact ih _ (exchange_inv_step s op h)

/-- After any pass by side S, `passing_` equals S's cached `last` (both
branches of `Pass` write the same word to both places). -/
theorem pass_passing_eq_last (right : Bool) (s : State α) :
    (Pass right s).state.passing =
      (context (Pass right s).state right).last := by
  unfold Pass
  by_cases hcas : s.passing = (context s right).last
  · rw [if_pos hcas]; cases right <;> rfl
  · rw [if_neg hcas]; cases right <;> rfl

/-- When `passing_` equals the side's cached `last`, the CAS succeeds and the
pass reports `exchanged = false`. -/
theorem pass_not_exchanged (right : Bool) (s : State α)
    (h : s.passing = (context s right).last) :
    (Pass right s).exchanged = false := by
  unfold Pass
  rw [if_pos h]

end Local3StateExchange

/-- C1: For every reachable state of a three-slot instance (`Local3StateRcu`
or `Local3StateExchange`), under any sequence of operations by the two
sides, the index owned by the Left/reader side, the index owned by the
Right/updater side, and the mid (in-flight) slot index are pairwise
distinct values drawn from {0,1,2}. -/
theorem c1_three_slot_exclusion :
    (∀ (α : Type) (r u c : α) (ops : List (Local3StateRcu.Op α)),
      let s := Local3StateRcu.run (Local3StateRcu.init r u c) ops
      mem3 s.readIndex ∧ mem3 s.update.index ∧
      mem3 (Local3StateRcu.midIndex s) ∧
      s.readIndex ≠ s.update.index ∧
      s.readIndex ≠ Local3StateRcu.midIndex s ∧
      s.update.index ≠ Local3StateRcu.midIndex s) ∧
    (∀ (α : Type) (v : α) (ops : List (Local3StateExchange.Op α)),
      let s := Local3StateExchange.run (Local3StateExchange.init v) ops
      mem3 s.contextLeft.index ∧ mem3 s.contextRight.index ∧
      mem3 (Local3StateExchange.midIndex s) ∧
      s.contextLeft.index ≠ s.contextRight.index ∧
      s.contextLeft.index ≠ Local3StateExchange.midIndex s ∧
      s.contextRight.index ≠ Local3StateExchange.midIndex s) :=
  ⟨fun _ r u c ops =>
      Local3StateRcu.inv_distinct _
        (Local3StateRcu.inv_run _ ops (Local3StateRcu.inv_init r u c)),
    fun _ v ops =>
      Local3StateExchange.exchange_inv_run _ ops
        (Local3StateExchange.exchange_inv_init v)⟩

/-- C2: For a `TwoThreadConcurrent<int>` initialized to 0, the call sequence
`update(Left,1); update(Right,2); update(Left,4); update(Right,8);
update(Left,16); update(Right,32); update(Right,0)` returns, in order, the
pairs (0,false), (1,true), (3,true), (7,true), (15,true), (31,true),
(63,false) — first component the accumulator just before the new diff is
applied, second the `exchanged` flag. -/
theorem c2_zigzag_monoid :
    TwoThreadConcurrent.UpdateSeq (TwoThreadConcurrent.init 0)
      [(false, 1), (true, 2), (false, 4), (true, 8),
       (false, 16), (true, 32), (true, 0)] =
    [(0, false), (1, true), (3, true), (7, true),
     (15, true), (31, true), (63, false)] := by decide

/-- C3: `ForceUpdate` atomically exchanges `next_read_idx_or_null` with
`update_idx`; on a null previous value it rotates the updater indices and
returns true, otherwise it sets `next_idx` to the old `update_idx`, sets
`update_idx` to the previous mid index, returns false, and the old mid value
is discarded unseen by the reader.  Concretely, on a `Local3StateRcu<int>`
initialized to 0: `update()=1; force_update()`→true; `update()=2;
force_update()`→false; then `try_read()`→true and `read()`→2, and the value
1 is never observed by the reader (it ends up back in `Update()`). -/
theorem c3_force_update :
    (∀ (α : Type) (s : Local3StateRcu.State α),
      (s.nextReadIndex = Local3StateRcu.kNullIndex →
        Local3StateRcu.ForceUpdate s =
          (true, { s with nextReadIndex := s.update.index
                          update := s.update.RotateAfterNext })) ∧
      (s.nextReadIndex ≠ Local3StateRcu.kNullIndex →
        Local3StateRcu.ForceUpdate s =
          (false, { s with
                      nextReadIndex := s.update.index
                      update := { index := Local3StateRcu.midIndex s
                                  nextIndex := s.update.index } }))) ∧
    (let s1 := Local3StateRcu.writeUpdate (Local3StateRcu.init (0 : ℤ) 0 0) 1
     let f1 := Local3StateRcu.ForceUpdate s1
     let s2 := Local3StateRcu.writeUpdate f1.2 2
     let f2 := Local3StateRcu.ForceUpdate s2
     let t := Local3StateRcu.TryRead f2.2
     f1.1 = true ∧ f2.1 = false ∧ t.1 = true ∧
     Local3StateRcu.Read t.2 = 2 ∧
     Local3StateRcu.Read s1 = 0 ∧ Local3StateRcu.Read f1.2 = 0 ∧
     Local3StateRcu.Read s2 = 0 ∧ Local3StateRcu.Read f2.2 = 0 ∧
     Local3StateRcu.Update f2.2 = 1) := by
  constructor
  · intro α s
    constructor
    · intro hnull
      unfold Local3StateRcu.ForceUpdate
      rw [if_pos hnull]
    · intro hnull
      unfold Local3StateRcu.ForceUpdate Local3StateRcu.midIndex
      rw [if_neg hnull, if_neg hnull]
  · decide

/-- Partial applications of `c3_force_update` at concrete states, exercising
both hypotheses. -/
theorem c3_force_update_witness :
    (Local3StateRcu.init (0 : ℤ) 0 0).nextReadIndex =
      Local3StateRcu.kNullIndex ∧
    (Local3StateRcu.ForceUpdate
        (Local3StateRcu.init (0 : ℤ) 0 0)).1 = true ∧
    (Local3StateRcu.ForceUpdate
        (Local3StateRcu.ForceUpdate (Local3StateRcu.init (0 : ℤ) 0 0)).2).1 =
      false :=
  ⟨rfl,
    by rw [(c3_force_update.1 ℤ (Local3StateRcu.init 0 0 0)).1 rfl],
    by rw [(c3_force_update.1 ℤ
        (Local3StateRcu.ForceUpdate (Local3StateRcu.init 0 0 0)).2).2
        (by decide)]⟩

/-- C4: `TryUpdate` compare-exchanges `next_read_idx_or_null` from null to
`update_idx`; on success it rotates the updater indices so that `Update()`
afterwards references the cell previously held by the reader — the unique
index in {0,1,2} other than the old `update_idx` and `next_idx` — with
`next_idx` set to the old `update_idx`, and returns true; on failure it
returns false and the cell referenced by `Update()` is unchanged. -/
theorem c4_try_update :
    ∀ (α : Type) (s : Local3StateRcu.State α), Local3StateRcu.Inv s →
      (s.nextReadIndex = Local3StateRcu.kNullIndex →
        (Local3StateRcu.TryUpdate s).1 = true ∧
        (Local3StateRcu.TryUpdate s).2.nextReadIndex = s.update.index ∧
        (Local3StateRcu.TryUpdate s).2.update.nextIndex = s.update.index ∧
        mem3 (Local3StateRcu.TryUpdate s).2.update.index ∧
        (Local3StateRcu.TryUpdate s).2.update.index ≠ s.update.index ∧
        (Local3StateRcu.TryUpdate s).2.update.index ≠ s.update.nextIndex ∧
        (∀ j, mem3 j → j ≠ s.update.index → j ≠ s.update.nextIndex →
          (Local3StateRcu.TryUpdate s).2.update.index = j) ∧
        (Local3StateRcu.TryUpdate s).2.values = s.values) ∧
      (s.nextReadIndex ≠ Local3StateRcu.kNullIndex →
        (Local3StateRcu.TryUpdate s).1 = false ∧
        (Local3StateRcu.TryUpdate s).2 = s) := by
  intro α s hInv
  obtain ⟨hr, hu, hn, hne, _⟩ := hInv
  constructor
  · intro hnull
    unfold Local3StateRcu.TryUpdate
    rw [if_pos hnull]
    refine ⟨rfl, rfl, rfl, ?_, ?_, ?_, ?_, rfl⟩ <;>
      simp only [Local3StateRcu.UpdateCtx.RotateAfterNext,
        Local3StateRcu.UpdateCtx.OldReadIndex]
    · rcases hu with h1 | h1 | h1 <;> rcases hn with h2 | h2 | h2 <;>
        simp [mem3, h1, h2] <;> omega
    · rcases hu with h1 | h1 | h1 <;> rcases hn with h2 | h2 | h2 <;>
        simp [h1, h2] <;> omega
    · rcases hu with h1 | h1 | h1 <;> rcases hn with h2 | h2 | h2 <;>
        simp [h1, h2] <;> omega
    · intro j hj hj1 hj2
      rcases hu with h1 | h1 | h1 <;> rcases hn with h2 | h2 | h2 <;>
        rcases hj with h3 | h3 | h3 <;> simp_all <;> omega
  · intro hnull
    unfold Local3StateRcu.TryUpdate
    rw [if_neg hnull]
    exact ⟨rfl, rfl⟩

/-- Application of `c4_try_update` at concrete states, exercising both
hypotheses. -/
theorem c4_try_update_witness :
    Local3StateRcu.Inv (Local3StateRcu.init (0 : ℤ) 0 0) ∧
    (Local3StateRcu.TryUpdate (Local3StateRcu.init (0 : ℤ) 0 0)).1 = true ∧
    (Local3StateRcu.TryUpdate
        (Local3StateRcu.TryUpdate (Local3StateRcu.init (0 : ℤ) 0 0)).2).1 =
      false :=
  ⟨by decide,
    ((c4_try_update ℤ (Local3StateRcu.init 0 0 0) (by decide)).1 rfl).1,
    ((c4_try_update ℤ
        (Local3StateRcu.TryUpdate (Local3StateRcu.init 0 0 0)).2
        (by decide)).2 (by decide)).1⟩

/-- C5: Reader stability: whenever `TryRead` returns false it leaves the
state — in particular `read_.index` and the contents of the designated cell
— unchanged, so repeated `Read()` calls between false-returning `TryRead`
calls return the identically addressed cell with identical contents. -/
theorem c5_reader_stability :
    ∀ (α : Type) (s : Local3StateRcu.State α),
      (Local3StateRcu.TryRead s).1 = false →
      (Local3StateRcu.TryRead s).2 = s ∧
      (Local3StateRcu.TryRead s).2.readIndex = s.readIndex ∧
      Local3StateRcu.Read (Local3StateRcu.TryRead s).2 =
        Local3StateRcu.Read s := by
  intro α s h
  have hnull : s.nextReadIndex = Local3StateRcu.kNullIndex := by
    by_contra hc
    unfold Local3StateRcu.TryRead at h
    rw [if_pos hc] at h
    simp at h
  have hs : (Local3StateRcu.TryRead s).2 = s := by
    unfold Local3StateRcu.TryRead
    rw [if_neg (by simp [hnull])]
    cases s
    simp_all
  exact ⟨hs, by rw [hs], by rw [hs]⟩

/-- Application of `c5_reader_stability` at a concrete state where `TryRead`
returns false. -/
theorem c5_reader_stability_witness :
    (Local3StateRcu.TryRead (Local3StateRcu.init (7 : ℤ) 8 9)).1 = false ∧
    Local3StateRcu.Read
        (Local3StateRcu.TryRead (Local3StateRcu.init (7 : ℤ) 8 9)).2 =
      Local3StateRcu.Read (Local3StateRcu.init (7 : ℤ) 8 9) :=
  ⟨by decide,
    (c5_reader_stability ℤ (Local3StateRcu.init 7 8 9) (by decide)).2.2⟩

/-- C6: No spurious exchanges: starting from the initial
`Local3StateExchange` state, if only one side calls `Pass()` repeatedly
while the other side performs no operation, the first Left call returns
`exchanged = false` and `past_exchanged = false` (the symmetric
initial-state result for the Right side is `exchanged = true`,
`past_exchanged = false`), and every subsequent call returns
`exchanged = false`. -/
theorem c6_no_spurious_exchanges :
    ∀ (α : Type) (v : α),
      ((Local3StateExchange.Pass false
          (Local3StateExchange.init v)).exchanged = false ∧
       (Local3StateExchange.Pass false
          (Local3StateExchange.init v)).pastExchanged = false) ∧
      (∀ n : ℕ,
        (Local3StateExchange.Pass false
          (Local3StateExchange.soloStates false
            (Local3StateExchange.init v) n)).exchanged = false) ∧
      ((Local3StateExchange.Pass true
          (Local3StateExchange.init v)).exchanged = true ∧
       (Local3StateExchange.Pass true
          (Local3StateExchange.init v)).pastExchanged = false) ∧
      (∀ n : ℕ, 1 ≤ n →
        (Local3StateExchange.Pass true
          (Local3StateExchange.soloStates true
            (Local3StateExchange.init v) n)).exchanged = false) := by
  intro α v
  refine ⟨⟨rfl, rfl⟩, ?_, ⟨rfl, rfl⟩, ?_⟩
  · intro n
    cases n with
    | zero =>
        exact Local3StateExchange.pass_not_exchanged false _ rfl
    | succ m =>
        exact Local3StateExchange.pass_not_exchanged false _
          (Local3StateExchange.pass_passing_eq_last false _)
  · intro n hn
    cases n with
    | zero => omega
    | succ m =>
        exact Local3StateExchange.pass_not_exchanged true _
          (Local3StateExchange.pass_passing_eq_last true _)

/-- Application of `c6_no_spurious_exchanges` at `n = 1` for the Right
side. -/
theorem c6_no_spurious_exchanges_witness :
    (1 : ℕ) ≤ 1 ∧
    (Local3StateExchange.Pass true
      (Local3StateExchange.soloStates true
        (Local3StateExchange.init (0 : ℤ)) 1)).exchanged = false :=
  ⟨by decide, (c6_no_spurious_exchanges ℤ 0).2.2.2 1 (by decide)⟩

/-- C9: Callback guarantee of `Pass`: whenever the returned result has
`past_exchanged = true`, the `might_double_exchange` callback has been
invoked — exactly once, on the value of the cell the side owned before the
pass (the cell about to be handed over). -/
theorem c9_pass_callback_guarantee :
    ∀ (α : Type) (s : Local3StateExchange.State α) (right : Bool),
      (Local3StateExchange.Pass right s).pastExchanged = true →
      (Local3StateExchange.Pass right s).callbackArgs =
        [s.values.get (Local3StateExchange.context s right).index] := by
  intro α s right h
  unfold Local3StateExchange.Pass at h ⊢
  by_cases hcas : s.passing = (Local3StateExchange.context s right).last
  · rw [if_pos hcas] at h ⊢
    simp only at h
    simp [h]
  · rw [if_neg hcas] at h ⊢
    simp only at h
    cases hc : (Int.land (Local3StateExchange.context s right).last
        Local3StateExchange.kExchangedMask != 0) <;>
      simp [hc, h]

/-- Application of `c9_pass_callback_guarantee` at a concrete reachable
state with `past_exchanged = true` (the second solo pass of the Right
side). -/
theorem c9_pass_callback_guarantee_witness :
    (Local3StateExchange.Pass true
      (Local3StateExchange.soloStates true
        (Local3StateExchange.init (0 : ℤ)) 1)).pastExchanged = true ∧
    (Local3StateExchange.Pass true
      (Local3StateExchange.soloStates true
        (Local3StateExchange.init (0 : ℤ)) 1)).callbackArgs =
      [(Local3StateExchange.soloStates true
          (Local3StateExchange.init (0 : ℤ)) 1).values.get
        (Local3StateExchange.context
          (Local3StateExchange.soloStates true
            (Local3StateExchange.init (0 : ℤ)) 1) true).index] :=
  ⟨by decide, c9_pass_callback_guarantee ℤ _ true (by decide)⟩

namespace LockFreeMetric

theorem land_lit_03 : Int.land 0 3 = 0 := by decide

theorem land_lit_13 : Int.land 1 3 = 1 := by decide

theorem land_lit_04 : Int.land 0 4 = 0 := by decide

theorem land_lit_14 : Int.land 1 4 = 0 := by decide

/-- One producer-only `Update(1)` step advances the closed form. -/
theorem localUpdate_producer (k : ℕ) :
    LocalUpdate 1 (producerState k) = producerState (k + 1) := by
  rcases Nat.eq_zero_or_pos k with hk | hk
  · subst hk; decide
  · have hk0 : k ≠ 0 := by omega
    have hk1 : k + 1 ≠ 0 := by omega
    rcases Nat.mod_two_eq_zero_or_one k with hpar | hpar
    · have hpar' : (k + 1) % 2 = 1 := by omega
      simp only [producerState, hk0, hk1, if_false, hpar, hpar']
      simp [LocalUpdate, PassLeft, MSlice.Append, MSlice.KeepJustLast,
        MSlice.Reset, MSlice.size, MSlice.empty, Cells.get, Cells.set,
        activeSlice, kIndexMask, kByRightMask, land_lit_03, land_lit_13,
        land_lit_04, land_lit_14]
    · have hpar' : (k + 1) % 2 = 0 := by omega
      simp only [producerState, hk0, hk1, if_false, hpar, hpar']
      simp [LocalUpdate, PassLeft, MSlice.Append, MSlice.KeepJustLast,
        MSlice.Reset, MSlice.size, MSlice.empty, Cells.get, Cells.set,
        activeSlice, kIndexMask, kByRightMask, land_lit_03, land_lit_13,
        land_lit_04, land_lit_14]

theorem updateN_producer (k : ℕ) : updateN k = producerState k := by
  induction k with
  | zero => rfl
  | succ m ih =>
      show LocalUpdate 1 (updateN m) = producerState (m + 1)
      rw [ih, localUpdate_producer]

/-- A single `Collect()` after `k` producer-only `Update(1)` calls returns
exactly `k`. -/
theorem collect_updateN (k : ℕ) :
    (LocalCollect (updateN k)).1 = (k : ℤ) := by
  rw [updateN_producer]
  rcases Nat.eq_zero_or_pos k with hk | hk
  · subst hk; decide
  · have hk0 : k ≠ 0 := by omega
    rcases Nat.mod_two_eq_zero_or_one k with hpar | hpar <;>
      simp only [producerState, hk0, if_false, hpar] <;>
      simp [LocalCollect, PassRight, MSlice.size, MSlice.KeepJustLast,
        MSlice.CollectAndReset, MSlice.Reset, MSlice.empty, Cells.get,
        Cells.set, activeSlice, kIndexMask, kByRightMask, land_lit_03,
        land_lit_13, land_lit_04, land_lit_14] <;>
      split_ifs <;> omega

end LockFreeMetric

/-- C7: Metric total: for any family of producers performing a total of `N`
`Update` calls each adding 1, a single `Collect()` on the `LockFreeMetric`
after all producers complete returns one value per per-thread local whose
sum is exactly `N` — no update is lost and none double-counted. -/
theorem c7_metric_total :
    ∀ ks : List ℕ,
      (LockFreeMetric.CollectAll (ks.map LockFreeMetric.updateN)).sum =
        (ks.sum : ℤ) := by
  intro ks
  induction ks with
  | nil => rfl
  | cons k ks ih =>
      simp only [List.map_cons, LockFreeMetric.CollectAll, List.map,
        List.sum_cons] at ih ⊢
      rw [LockFreeMetric.collect_updateN, ih]
      push_cast
      ring

/-- C8: `CopyRcu::UpdateIf(value, pred)` evaluates `pred` on the current
value under the internal mutex; if it is false it returns `nullopt` and
leaves the stored current value and every registered per-thread view
unchanged (no fan-out occurs); if it is true it behaves exactly like
`Update` and returns the previous value. -/
theorem c8_update_if :
    ∀ (α : Type) (s : CopyRcu.State α) (v : α) (pred : α → Bool),
      (pred s.value = false →
        CopyRcu.UpdateIf s v pred = (none, s)) ∧
      (pred s.value = true →
        CopyRcu.UpdateIf s v pred =
          (some (CopyRcu.Update s v).1, (CopyRcu.Update s v).2) ∧
        (CopyRcu.Update s v).1 = s.value) := by
  intro α s v pred
  constructor
  · intro h
    unfold CopyRcu.UpdateIf
    rw [h]
    simp
  · intro h
    unfold CopyRcu.UpdateIf
    rw [h]
    exact ⟨rfl, rfl⟩

/-- Applications of `c8_update_if` at a concrete `CopyRcu<int>` state with a
false and a true predicate. -/
theorem c8_update_if_witness :
    ((fun x => decide (x = 1)) (0 : ℤ) = false) ∧
    CopyRcu.UpdateIf (⟨0, []⟩ : CopyRcu.State ℤ) 5 (fun x => decide (x = 1)) =
      (none, (⟨0, []⟩ : CopyRcu.State ℤ)) ∧
    ((fun x => decide (x = 0)) (0 : ℤ) = true) ∧
    CopyRcu.UpdateIf (⟨0, []⟩ : CopyRcu.State ℤ) 5 (fun x => decide (x = 0)) =
      (some (CopyRcu.Update (⟨0, []⟩ : CopyRcu.State ℤ) 5).1,
        (CopyRcu.Update (⟨0, []⟩ : CopyRcu.State ℤ) 5).2) :=
  ⟨rfl,
    (c8_update_if ℤ ⟨0, []⟩ 5 (fun x => decide (x = 1))).1 rfl,
    rfl,
    ((c8_update_if ℤ ⟨0, []⟩ 5 (fun x => decide (x = 0))).2 rfl).1⟩

/-- C10: Snapshot reentrancy of `CopyRcu::View`: `Read()` invokes `TryRead`
on the underlying `Local3StateRcu` exactly when `snapshot_depth_` is
incremented from 0; a nested `Read()` (while an earlier `Snapshot` is
alive, i.e. depth nonzero) leaves the local RCU — cell and contents —
untouched and returns the same value; every `Read` increments the depth by
one and every `Snapshot` release decrements it by one, so releasing all
snapshots returns the depth to 0 and lets the next outermost `Read()`
advance. -/
theorem c10_snapshot_reentrancy :
    ∀ (α : Type) (v : CopyRcu.View α),
      (v.snapshotDepth = 0 →
        (CopyRcu.View.Read v).2.localRcu =
          (Local3StateRcu.TryRead v.localRcu).2) ∧
      (v.snapshotDepth ≠ 0 →
        (CopyRcu.View.Read v).2.localRcu = v.localRcu ∧
        (CopyRcu.View.Read v).1 = Local3StateRcu.Read v.localRcu) ∧
      (CopyRcu.View.Read v).2.snapshotDepth = v.snapshotDepth + 1 ∧
      (CopyRcu.View.releaseSnapshot v).snapshotDepth =
        v.snapshotDepth - 1 := by
  intro α v
  refine ⟨?_, ?_, ?_, rfl⟩
  · intro h
    simp only [CopyRcu.View.Read]
    rw [if_pos h]
  · intro h
    simp only [CopyRcu.View.Read]
    rw [if_neg h]
    exact ⟨rfl, rfl⟩
  · simp only [CopyRcu.View.Read]
    by_cases h : v.snapshotDepth = 0
    · rw [if_pos h]
    · rw [if_neg h]

/-- Applications of `c10_snapshot_reentrancy` at concrete views with
`snapshot_depth_ = 0` (outermost read) and `snapshot_depth_ = 1` (nested
read). -/
theorem c10_snapshot_reentrancy_witness :
    ((⟨0, Local3StateRcu.init (0 : ℤ) 0 0⟩ :
        CopyRcu.View ℤ).snapshotDepth = 0) ∧
    (CopyRcu.View.Read
        (⟨0, Local3StateRcu.init (0 : ℤ) 0 0⟩ : CopyRcu.View ℤ)).2.localRcu =
      (Local3StateRcu.TryRead (Local3StateRcu.init (0 : ℤ) 0 0)).2 ∧
    ((⟨1, Local3StateRcu.init (0 : ℤ) 0 0⟩ :
        CopyRcu.View ℤ).snapshotDepth ≠ 0) ∧
    (CopyRcu.View.Read
        (⟨1, Local3StateRcu.init (0 : ℤ) 0 0⟩ : CopyRcu.View ℤ)).1 =
      Local3StateRcu.Read (Local3StateRcu.init (0 : ℤ) 0 0) :=
  ⟨rfl,
    (c10_snapshot_reentrancy ℤ ⟨0, Local3StateRcu.init 0 0 0⟩).1 rfl,
    by decide,
    ((c10_snapshot_reentrancy ℤ ⟨1, Local3StateRcu.init 0 0 0⟩).2.1
      (by decide)).2⟩
